import Mathlib

/-!
Shallow embedding of the matrix access layer in src/matrix.rs.

Modelling conventions:
* Rust f64 values are modelled as Rat: the code never performs arithmetic
  on the stored values, it only stores and returns them, so an exact
  numeric type is a faithful carrier for the test constants.
* A Rust indexing operation xs[i] panics when i is out of bounds; it is
  modelled by the total lookup xs[i]? : Option _, with none standing for
  the panic.  Every operation of the source that contains an unchecked
  index or an unwrap therefore returns an Option, where none means the
  operation faults; operations whose source body cannot fault are total.
* usize is modelled as Nat.
-/

namespace RsPmml

/-- The closed MatrixKind tag of the source. -/
inductive MatrixKind where
  | Diagonal
  | Symmetric
  | Any
deriving DecidableEq

/-- DiagonalMatrix: stores only the diagonal entries. -/
structure DiagonalMatrix where
  values : List Rat
  off_diag_default : Option Rat
deriving DecidableEq

/-- The global fallback of every variant, fn default: 0.0. -/
def DiagonalMatrix.default (_ : DiagonalMatrix) : Rat := 0

/-- DiagonalMatrix::get: if i == j then values[i] (unchecked index; none
models the panic) else off_diag_default.unwrap_or(default()). -/
def DiagonalMatrix.get (m : DiagonalMatrix) (i j : Nat) : Option Rat :=
  if i = j then
    m.values[i]?
  else
    some (m.off_diag_default.getD m.default)

def DiagonalMatrix.diag_default (_ : DiagonalMatrix) : Option Rat := none

def DiagonalMatrix.nb_rows (m : DiagonalMatrix) : Nat := m.values.length

def DiagonalMatrix.nb_cols (m : DiagonalMatrix) : Nat := m.values.length

def DiagonalMatrix.kind (_ : DiagonalMatrix) : MatrixKind := .Diagonal

/-- SymmetricMatrix: ragged lower-triangular packing. -/
structure SymmetricMatrix where
  values : List (List Rat)
deriving DecidableEq

def SymmetricMatrix.default (_ : SymmetricMatrix) : Rat := 0

/-- SymmetricMatrix::get, following the source line by line:
short-circuit to default() when i or j is at least values.len();
otherwise read values[i] (in bounds by the check), then for i > j
read values[j][i] when i < values[j].len(), for i <= j read
values[i][j] when j < values[i].len(), falling through to default().
A bind over the Option of an index models the Rust index expression,
whose panic (none) propagates. -/
def SymmetricMatrix.get (m : SymmetricMatrix) (i j : Nat) : Option Rat :=
  if i ≥ m.values.length ∨ j ≥ m.values.length then
    some m.default
  else
    (m.values[i]?).bind fun row_i =>
      if i > j then
        (m.values[j]?).bind fun row_j =>
          if i < row_j.length then row_j[i]? else some m.default
      else
        if j < row_i.length then row_i[j]? else some m.default

def SymmetricMatrix.diag_default (_ : SymmetricMatrix) : Option Rat := none

def SymmetricMatrix.off_diag_default (_ : SymmetricMatrix) : Option Rat := none

def SymmetricMatrix.nb_rows (m : SymmetricMatrix) : Nat := m.values.length

/-- SymmetricMatrix::nb_cols: values.last().unwrap().len(); the unwrap
panics (none) when values is empty. -/
def SymmetricMatrix.nb_cols (m : SymmetricMatrix) : Option Nat :=
  m.values.getLast?.map List.length

def SymmetricMatrix.kind (_ : SymmetricMatrix) : MatrixKind := .Symmetric

/-- DenseMatrix: row-major storage of every entry. -/
structure DenseMatrix where
  values : List (List Rat)
deriving DecidableEq

def DenseMatrix.default (_ : DenseMatrix) : Rat := 0

/-- DenseMatrix::get: bounds-checked row then column read, falling back
to default(). -/
def DenseMatrix.get (m : DenseMatrix) (i j : Nat) : Option Rat :=
  if i < m.values.length then
    (m.values[i]?).bind fun row =>
      if j < row.length then row[j]? else some m.default
  else
    some m.default

def DenseMatrix.diag_default (_ : DenseMatrix) : Option Rat := none

def DenseMatrix.off_diag_default (_ : DenseMatrix) : Option Rat := none

def DenseMatrix.nb_rows (m : DenseMatrix) : Nat := m.values.length

/-- DenseMatrix::nb_cols: values[0].len(), an unchecked index that
panics (none) when values is empty. -/
def DenseMatrix.nb_cols (m : DenseMatrix) : Option Nat :=
  (m.values[0]?).map List.length

def DenseMatrix.kind (_ : DenseMatrix) : MatrixKind := .Any

/-- SparseMatrix: compressed-sparse-column storage. -/
structure SparseMatrix where
  nb_rows : Nat
  nb_cols : Nat
  col_ptrs : List Nat
  row_indices : List Nat
  values : List Rat
  diag_default : Option Rat
  off_diag_default : Option Rat
deriving DecidableEq

def SparseMatrix.default (_ : SparseMatrix) : Rat := 0

/-- SparseMatrix::index: slice row_indices[col_ptrs[j]..col_ptrs[j+1]]
and scan it for the first position holding row i.  The outer Option
models the panics: col_ptrs[j] and col_ptrs[j+1] are unchecked indexes,
and the slice operation itself panics when the bounds are reversed or
exceed row_indices.len().  The inner Option is the source's own
Option<usize> result. -/
def SparseMatrix.index (m : SparseMatrix) (i j : Nat) : Option (Option Nat) :=
  (m.col_ptrs[j]?).bind fun lo =>
    (m.col_ptrs[j+1]?).bind fun hi =>
      if lo ≤ hi ∧ hi ≤ m.row_indices.length then
        some ((((m.row_indices.drop lo).take (hi - lo)).findIdx?
          (fun row => row == i)).map (fun pos => lo + pos))
      else
        none

/-- SparseMatrix::get: on a found position read values[ind] (unchecked
index), otherwise fall back to diag_default / off_diag_default
depending on whether i == j, each defaulting to default(). -/
def SparseMatrix.get (m : SparseMatrix) (i j : Nat) : Option Rat :=
  (m.index i j).bind fun res =>
    match res with
    | some ind => m.values[ind]?
    | none =>
      some (if i = j then m.diag_default.getD m.default
            else m.off_diag_default.getD m.default)

def SparseMatrix.kind (_ : SparseMatrix) : MatrixKind := .Any

/-! Helper lemmas shared by the claim theorems. -/

/-- Every read in SymmetricMatrix::get is guarded by a bounds check, so
the operation never reaches a panicking index. -/
theorem symGet_isSome (m : SymmetricMatrix) (i j : Nat) :
    (m.get i j).isSome = true := by
  unfold SymmetricMatrix.get
  split
  · rfl
  · rename_i h
    push_neg at h
    rw [List.getElem?_eq_getElem h.1, Option.some_bind]
    split
    · rw [List.getElem?_eq_getElem h.2, Option.some_bind]
      split
      · rename_i hlt
        rw [List.getElem?_eq_getElem hlt]
        rfl
      · rfl
    · split
      · rename_i hlt
        rw [List.getElem?_eq_getElem hlt]
        rfl
      · rfl

/-- Every read in DenseMatrix::get is guarded by a bounds check. -/
theorem denseGet_isSome (m : DenseMatrix) (i j : Nat) :
    (m.get i j).isSome = true := by
  unfold DenseMatrix.get
  split
  · rename_i h
    rw [List.getElem?_eq_getElem h, Option.some_bind]
    split
    · rename_i hlt
      rw [List.getElem?_eq_getElem hlt]
      rfl
    · rfl
  · rfl

/-- When both column pointers exist and the slice bounds are valid,
SparseMatrix::index reduces to the scan of the column slice. -/
theorem sparse_index_eq (m : SparseMatrix) (i j lo hi : Nat)
    (hlo : m.col_ptrs[j]? = some lo)
    (hhi : m.col_ptrs[j+1]? = some hi)
    (h1 : lo ≤ hi) (h2 : hi ≤ m.row_indices.length) :
    m.index i j =
      some ((((m.row_indices.drop lo).take (hi - lo)).findIdx?
        (fun row => row == i)).map (fun pos => lo + pos)) := by
  unfold SparseMatrix.index
  rw [hlo, Option.some_bind, hhi, Option.some_bind, if_pos ⟨h1, h2⟩]

/-- getD form of the list lookup on an in-range index. -/
theorem getD_getElem?_of_lt {α : Type} [Inhabited α] (l : List α) (d : α)
    (n : Nat) (hn : n < l.length) : l[n]? = some (l.getD n d) := by
  rw [List.getD_eq_getElem _ _ hn]
  exact List.getElem?_eq_getElem hn

/-- A list whose adjacent entries are non-decreasing is monotone. -/
theorem getD_chain_le (l : List Nat)
    (hmono : ∀ t, t + 1 < l.length → l.getD t 0 ≤ l.getD (t+1) 0)
    (a b : Nat) : a ≤ b → b < l.length → l.getD a 0 ≤ l.getD b 0 := by
  induction b with
  | zero =>
    intro hab _
    have h0 : a = 0 := Nat.le_zero.mp hab
    rw [h0]
  | succ n ih =>
    intro hab hb
    rcases Nat.lt_or_ge a (n+1) with h | h
    · exact le_trans (ih (by omega) (by omega)) (hmono n hb)
    · have hA : a = n + 1 := by omega
      rw [hA]

/-- SparseMatrix::get completes whenever column j's slice bounds are
valid and values covers row_indices. -/
theorem sparseGet_isSome (m : SparseMatrix) (i j : Nat)
    (hj : j + 1 < m.col_ptrs.length)
    (hle : m.col_ptrs.getD j 0 ≤ m.col_ptrs.getD (j+1) 0)
    (hhi : m.col_ptrs.getD (j+1) 0 ≤ m.row_indices.length)
    (hv : m.row_indices.length ≤ m.values.length) :
    (m.get i j).isSome = true := by
  have hj' : j < m.col_ptrs.length := by omega
  rw [SparseMatrix.get, sparse_index_eq m i j _ _
    (getD_getElem?_of_lt m.col_ptrs 0 j hj')
    (getD_getElem?_of_lt m.col_ptrs 0 (j+1) hj) hle hhi, Option.some_bind]
  cases hfind : ((m.row_indices.drop (m.col_ptrs.getD j 0)).take
      (m.col_ptrs.getD (j+1) 0 - m.col_ptrs.getD j 0)).findIdx?
      (fun row => row == i) with
  | none => rfl
  | some pos =>
    obtain ⟨hpos, -, -⟩ := List.findIdx?_eq_some_iff_getElem.mp hfind
    rw [List.length_take, List.length_drop] at hpos
    have hlt : m.col_ptrs.getD j 0 + pos < m.values.length := by omega
    show (m.values[m.col_ptrs.getD j 0 + pos]?).isSome = true
    rw [List.getElem?_eq_getElem hlt]
    rfl

/-- DenseMatrix::get returns the stored entry whenever the coordinate is
inside the actually stored (possibly ragged) rows. -/
theorem denseGet_stored (m : DenseMatrix) (i j : Nat)
    (hi : i < m.values.length) (hj : j < (m.values.getD i []).length) :
    m.get i j = some ((m.values.getD i []).getD j 0) := by
  unfold DenseMatrix.get
  rw [List.getD_eq_getElem _ _ hi] at hj
  rw [if_pos hi, List.getElem?_eq_getElem hi, Option.some_bind, if_pos hj,
    List.getElem?_eq_getElem hj, List.getD_eq_getElem _ _ hi,
    List.getD_eq_getElem _ _ hj]

/-! Claim theorems. -/

/-- C1 (corrected): the claim says get never fails for every variant; in
fact DiagonalMatrix::get is an unchecked read on the diagonal.  At the
concrete input below it faults (none models the panic). -/
theorem C1_counterexample :
    (DiagonalMatrix.mk [] none).get 0 0 = none := by
  decide

/-- C1 (amended): SymmetricMatrix::get and DenseMatrix::get return a
value for every pair of non-negative integers; DiagonalMatrix::get does
off the diagonal; and SparseMatrix::get never consults the nb_rows and
nb_cols fields: two sparse matrices differing only in those fields give
identical get results at every coordinate. -/
theorem C1_no_fault_amended :
    (∀ (m : SymmetricMatrix) (i j : Nat), (m.get i j).isSome = true)
    ∧ (∀ (m : DenseMatrix) (i j : Nat), (m.get i j).isSome = true)
    ∧ (∀ (m : DiagonalMatrix) (i j : Nat), i ≠ j →
        (m.get i j).isSome = true)
    ∧ (∀ (r c r' c' : Nat) (cp ri : List Nat) (vs : List Rat)
        (dd od : Option Rat) (i j : Nat),
        (SparseMatrix.mk r c cp ri vs dd od).get i j
          = (SparseMatrix.mk r' c' cp ri vs dd od).get i j) := by
  refine ⟨symGet_isSome, denseGet_isSome, ?_, ?_⟩
  · intro m i j hij
    unfold DiagonalMatrix.get
    rw [if_neg hij]
    rfl
  · intro r c r' c' cp ri vs dd od i j
    rfl

/-- C1 witness. -/
theorem C1_witness :
    ((DiagonalMatrix.mk [1,2,3] (some 0)).get 0 1).isSome = true :=
  C1_no_fault_amended.2.2.1 (DiagonalMatrix.mk [1,2,3] (some 0)) 0 1
    (by decide)

/-- C2 (code bug): on Symmetric{values:[[1],[2,3]]} the code returns
0.0 (the default) at (1,0) and (0,1) instead of the 2.0 that the spec's
Scenario D and the source's own disabled test assertions require: the
reflection branches read the upper-triangular mirror of the packed
lower-triangular rows, which is never stored under the ragged
invariant. -/
theorem C2_symmetric_scenario_d :
    (SymmetricMatrix.mk [[1],[2,3]]).get 0 0 = some 1
    ∧ (SymmetricMatrix.mk [[1],[2,3]]).get 1 0 = some 0
    ∧ (SymmetricMatrix.mk [[1],[2,3]]).get 0 1 = some 0 := by
  refine ⟨by decide, by decide, by decide⟩

/-- C3 (confirmed): SymmetricMatrix::get is symmetric in its arguments
for every ragged value list, including rows of the wrong length and an
empty outer list. -/
theorem C3_symmetric_get_comm (m : SymmetricMatrix) (i j : Nat) :
    m.get i j = m.get j i := by
  unfold SymmetricMatrix.get
  by_cases hi : i ≥ m.values.length
  · rw [if_pos (Or.inl hi), if_pos (Or.inr hi)]
  · by_cases hj : j ≥ m.values.length
    · rw [if_pos (Or.inr hj), if_pos (Or.inl hj)]
    · push_neg at hi hj
      rw [if_neg (by omega : ¬(i ≥ m.values.length ∨ j ≥ m.values.length)),
        if_neg (by omega : ¬(j ≥ m.values.length ∨ i ≥ m.values.length))]
      simp only [List.getElem?_eq_getElem hi, List.getElem?_eq_getElem hj,
        Option.some_bind]
      rcases lt_trichotomy i j with hij | hij | hij
      · rw [if_neg (by omega : ¬ i > j), if_pos (by omega : j > i)]
      · subst hij
        rfl
      · rw [if_pos (by omega : i > j), if_neg (by omega : ¬ j > i)]

/-- C4 (corrected): the claim says SparseMatrix::get never faults; in
fact its column-pointer reads are unchecked, and at the concrete input
below (a well-formed empty CSC matrix queried at column 0) the read of
col_ptrs[1] is within bounds but the query of column 0 of a matrix with
nb_cols = 0 reads col_ptrs[0+1] of the one-element list [0]: the access
faults. -/
theorem C4_counterexample :
    (SparseMatrix.mk 0 0 [0] [] [] none none).get 0 0 = none := by
  decide

/-- C4 (amended): DiagonalMatrix::get faults exactly on the diagonal
beyond the stored values; DenseMatrix::nb_cols and
SymmetricMatrix::nb_cols fault exactly on an empty row set;
SymmetricMatrix::get and DenseMatrix::get never fault; and
SparseMatrix::get completes whenever column j's slice bounds are valid
and values is as long as row_indices. -/
theorem C4_fault_conditions :
    (∀ (m : DiagonalMatrix) (i j : Nat),
        m.get i j = none ↔ i = j ∧ m.values.length ≤ i)
    ∧ (∀ (m : SymmetricMatrix) (i j : Nat), (m.get i j).isSome = true)
    ∧ (∀ (m : DenseMatrix) (i j : Nat), (m.get i j).isSome = true)
    ∧ (∀ m : DenseMatrix, m.nb_cols = none ↔ m.values = [])
    ∧ (∀ m : SymmetricMatrix, m.nb_cols = none ↔ m.values = [])
    ∧ (∀ (m : SparseMatrix) (i j : Nat),
        j + 1 < m.col_ptrs.length →
        m.col_ptrs.getD j 0 ≤ m.col_ptrs.getD (j+1) 0 →
        m.col_ptrs.getD (j+1) 0 ≤ m.row_indices.length →
        m.values.length = m.row_indices.length →
        (m.get i j).isSome = true) := by
  refine ⟨?_, symGet_isSome, denseGet_isSome, ?_, ?_, ?_⟩
  · intro m i j
    unfold DiagonalMatrix.get
    by_cases hij : i = j
    · rw [if_pos hij, List.getElem?_eq_none_iff]
      exact ⟨fun h => ⟨hij, h⟩, fun h => h.2⟩
    · rw [if_neg hij]
      simp [hij]
  · intro m
    unfold DenseMatrix.nb_cols
    rw [Option.map_eq_none', List.getElem?_eq_none_iff]
    constructor
    · intro h
      exact List.length_eq_zero.mp (Nat.le_zero.mp h)
    · intro h
      rw [h]
      exact Nat.le_refl 0
  · intro m
    unfold SymmetricMatrix.nb_cols
    rw [Option.map_eq_none']
    exact List.getLast?_eq_none_iff
  · intro m i j h1 h2 h3 h4
    exact sparseGet_isSome m i j h1 h2 h3 (le_of_eq h4.symm)

/-- C5 (confirmed): on a well-formed CSC structure, SparseMatrix::get
returns the stored entry of column j at row i when one exists, and the
diagonal or off-diagonal default otherwise. -/
theorem C5_sparse_csc_lookup (m : SparseMatrix)
    (hlen : m.col_ptrs.length = m.nb_cols + 1)
    (_hfirst : m.col_ptrs.getD 0 0 = 0)
    (hmono : ∀ t, t + 1 < m.col_ptrs.length →
      m.col_ptrs.getD t 0 ≤ m.col_ptrs.getD (t+1) 0)
    (hlast : m.col_ptrs.getD m.nb_cols 0 = m.row_indices.length)
    (hvals : m.values.length = m.row_indices.length)
    (hnodup : ∀ jj, jj < m.nb_cols → ∀ k1 k2,
      m.col_ptrs.getD jj 0 ≤ k1 → k1 < m.col_ptrs.getD (jj+1) 0 →
      m.col_ptrs.getD jj 0 ≤ k2 → k2 < m.col_ptrs.getD (jj+1) 0 →
      m.row_indices.getD k1 0 = m.row_indices.getD k2 0 → k1 = k2)
    (i j : Nat) (hj : j < m.nb_cols) :
    (∀ k, m.col_ptrs.getD j 0 ≤ k → k < m.col_ptrs.getD (j+1) 0 →
      m.row_indices.getD k 0 = i → m.get i j = some (m.values.getD k 0))
    ∧ ((∀ k, m.col_ptrs.getD j 0 ≤ k → k < m.col_ptrs.getD (j+1) 0 →
      m.row_indices.getD k 0 ≠ i) →
      m.get i j = some (if i = j then m.diag_default.getD 0
        else m.off_diag_default.getD 0)) := by
  have hj1 : j + 1 < m.col_ptrs.length := by omega
  have hj' : j < m.col_ptrs.length := by omega
  have hle : m.col_ptrs.getD j 0 ≤ m.col_ptrs.getD (j+1) 0 := hmono j hj1
  have hhi : m.col_ptrs.getD (j+1) 0 ≤ m.row_indices.length := by
    rw [← hlast]
    exact getD_chain_le m.col_ptrs hmono (j+1) m.nb_cols (by omega) (by omega)
  have hidx := sparse_index_eq m i j _ _
    (getD_getElem?_of_lt m.col_ptrs 0 j hj')
    (getD_getElem?_of_lt m.col_ptrs 0 (j+1) hj1) hle hhi
  set lo := m.col_ptrs.getD j 0 with hLo
  set hi := m.col_ptrs.getD (j+1) 0 with hHi
  have hSlen : ((m.row_indices.drop lo).take (hi - lo)).length = hi - lo := by
    rw [List.length_take, List.length_drop]
    omega
  constructor
  · intro k hk1 hk2 hki
    have hkri : k < m.row_indices.length := by omega
    have hk' : lo + (k - lo) = k := by omega
    have hfind : ((m.row_indices.drop lo).take (hi - lo)).findIdx?
        (fun row => row == i) = some (k - lo) := by
      apply List.findIdx?_eq_some_iff_getElem.mpr
      have hsl : k - lo < ((m.row_indices.drop lo).take (hi - lo)).length := by
        omega
      refine ⟨hsl, ?_, ?_⟩
      · have e : ((m.row_indices.drop lo).take (hi - lo))[k - lo]
            = m.row_indices.getD (lo + (k - lo)) 0 := by
          rw [List.getElem_take, List.getElem_drop,
            List.getD_eq_getElem _ _ (by omega : lo + (k - lo) < m.row_indices.length)]
        simp only [e, hk', hki, beq_iff_eq]
      · intro t ht
        have hts : t < ((m.row_indices.drop lo).take (hi - lo)).length := by
          omega
        have e : ((m.row_indices.drop lo).take (hi - lo))[t]
            = m.row_indices.getD (lo + t) 0 := by
          rw [List.getElem_take, List.getElem_drop,
            List.getD_eq_getElem _ _ (by omega : lo + t < m.row_indices.length)]
        simp only [e, beq_iff_eq]
        intro hcontra
        have heq : m.row_indices.getD (lo + t) 0 = m.row_indices.getD k 0 := by
          rw [hcontra, hki]
        have := hnodup j hj (lo + t) k (by omega) (by omega) (by omega)
          (by omega) heq
        omega
    unfold SparseMatrix.get
    rw [hidx]
    simp only [Option.some_bind, hfind, Option.map_some']
    show m.values[lo + (k - lo)]? = some (m.values.getD k 0)
    rw [hk']
    exact getD_getElem?_of_lt m.values 0 k (by omega)
  · intro hnone
    have hfind : ((m.row_indices.drop lo).take (hi - lo)).findIdx?
        (fun row => row == i) = none := by
      apply List.findIdx?_eq_none_iff.mpr
      intro x hx
      obtain ⟨t, ht, hxe⟩ := List.mem_iff_getElem.mp hx
      rw [hSlen] at ht
      have hts : t < ((m.row_indices.drop lo).take (hi - lo)).length := by
        omega
      have e : ((m.row_indices.drop lo).take (hi - lo))[t]
          = m.row_indices.getD (lo + t) 0 := by
        rw [List.getElem_take, List.getElem_drop,
          List.getD_eq_getElem _ _ (by omega : lo + t < m.row_indices.length)]
      have hxv : x = m.row_indices.getD (lo + t) 0 := by
        rw [← hxe]
        exact e
      have hne := hnone (lo + t) (by omega) (by omega)
      rw [← hxv] at hne
      simp [hne]
    unfold SparseMatrix.get
    rw [hidx]
    simp only [Option.some_bind, hfind, Option.map_none']
    rfl

/-- C5 witness. -/
theorem C5_witness :
    (SparseMatrix.mk 1 1 [0,1] [0] [5] (some 7) (some 9)).get 0 0
      = some 5 :=
  (C5_sparse_csc_lookup
    (SparseMatrix.mk 1 1 [0,1] [0] [5] (some 7) (some 9))
    (by decide) (by decide)
    (by
      intro t ht
      have ht0 : t = 0 := by
        simp only [SparseMatrix.col_ptrs, List.length_cons,
          List.length_nil] at ht
        omega
      subst ht0
      decide)
    (by decide) (by decide)
    (by
      intro jj hjj k1 k2 h1 h2 h3 h4 _
      have hjj0 : jj = 0 := by
        simp only [SparseMatrix.nb_cols] at hjj
        omega
      subst hjj0
      simp only [SparseMatrix.col_ptrs] at h2 h4
      have e : ([0,1] : List Nat).getD (0+1) 0 = 1 := rfl
      rw [e] at h2 h4
      omega)
    0 0 (by decide)).1 0 (by decide) (by decide) (by decide)

/-- C4 witness. -/
theorem C4_witness :
    ((SparseMatrix.mk 3 3 [0,1,2,3] [0,1,2] [1,2,3] (some 0)
      (some 0)).get 1 1).isSome = true :=
  C4_fault_conditions.2.2.2.2.2
    (SparseMatrix.mk 3 3 [0,1,2,3] [0,1,2] [1,2,3] (some 0) (some 0))
    1 1 (by decide) (by decide) (by decide) (by decide)

/-- C6 (confirmed): on a non-empty rectangular DenseMatrix, get returns
the stored entry inside the declared dimensions and 0.0 outside them. -/
theorem C6_dense_rectangular (m : DenseMatrix)
    (hne : m.values ≠ [])
    (hrect : ∀ row ∈ m.values, row.length = (m.values.getD 0 []).length) :
    m.nb_cols = some (m.values.getD 0 []).length
    ∧ (∀ i j, i < m.nb_rows → j < (m.values.getD 0 []).length →
        m.get i j = some ((m.values.getD i []).getD j 0))
    ∧ (∀ i j, m.nb_rows ≤ i ∨ (m.values.getD 0 []).length ≤ j →
        m.get i j = some 0) := by
  have h0 : 0 < m.values.length := List.length_pos.mpr hne
  refine ⟨?_, ?_, ?_⟩
  · unfold DenseMatrix.nb_cols
    rw [getD_getElem?_of_lt m.values [] 0 h0, Option.map_some']
  · intro i j hi hj
    simp only [DenseMatrix.nb_rows] at hi
    apply denseGet_stored m i j hi
    have hrow : (m.values.getD i []).length = (m.values.getD 0 []).length := by
      apply hrect
      rw [List.getD_eq_getElem _ _ hi]
      exact List.getElem_mem hi
    omega
  · intro i j hij
    simp only [DenseMatrix.nb_rows] at hij
    unfold DenseMatrix.get
    rcases Nat.lt_or_ge i m.values.length with hi | hi
    · rcases hij with hij | hij
      · omega
      · have hrow : (m.values[i]).length = (m.values.getD 0 []).length :=
          hrect _ (List.getElem_mem hi)
        simp only [if_pos hi, List.getElem?_eq_getElem hi, Option.some_bind]
        rw [if_neg (by omega)]
        rfl
    · rw [if_neg (by omega)]
      rfl

/-- C6 witness. -/
theorem C6_witness :
    (DenseMatrix.mk [[1,2],[3,4]]).get 0 1 = some 2 :=
  ((C6_dense_rectangular (DenseMatrix.mk [[1,2],[3,4]]) (by decide)
    (by decide)).2.1) 0 1 (by decide) (by decide)

/-- C7 (confirmed): a DiagonalMatrix built from n values reports
nb_rows = nb_cols = n, reads back values[i] on the diagonal, and the
off-diagonal default elsewhere in range. -/
theorem C7_diagonal_props (v : List Rat) (d : Option Rat) :
    (DiagonalMatrix.mk v d).nb_rows = v.length
    ∧ (DiagonalMatrix.mk v d).nb_cols = v.length
    ∧ (∀ i, i < v.length → (DiagonalMatrix.mk v d).get i i = some (v.getD i 0))
    ∧ (∀ i j, i < v.length → j < v.length → i ≠ j →
        (DiagonalMatrix.mk v d).get i j = some (d.getD 0)) := by
  refine ⟨rfl, rfl, ?_, ?_⟩
  · intro i hi
    unfold DiagonalMatrix.get
    rw [if_pos rfl]
    exact getD_getElem?_of_lt v 0 i hi
  · intro i j _ _ hij
    unfold DiagonalMatrix.get
    rw [if_neg hij]
    rfl

/-- C7 witness. -/
theorem C7_witness :
    (DiagonalMatrix.mk [1,2,3] (some 0)).get 1 1 = some 2
    ∧ (DiagonalMatrix.mk [1,2,3] (some 0)).get 0 1 = some 0 :=
  ⟨(C7_diagonal_props [1,2,3] (some 0)).2.2.1 1 (by decide),
   (C7_diagonal_props [1,2,3] (some 0)).2.2.2 0 1 (by decide) (by decide)
     (by decide)⟩

/-- C8 (confirmed): the kind tag of every instance of every variant. -/
theorem C8_kind_tags :
    (∀ m : DiagonalMatrix, m.kind = MatrixKind.Diagonal)
    ∧ (∀ m : SymmetricMatrix, m.kind = MatrixKind.Symmetric)
    ∧ (∀ m : DenseMatrix, m.kind = MatrixKind.Any)
    ∧ (∀ m : SparseMatrix, m.kind = MatrixKind.Any) :=
  ⟨fun _ => rfl, fun _ => rfl, fun _ => rfl, fun _ => rfl⟩

/-- C10 (confirmed): DenseMatrix::get reads whatever the ragged row
actually stores, so on values [[1],[2,3]] it returns the stored 3.0 at
(1,1) even though nb_cols reports only 1 column. -/
theorem C10_dense_ragged_reads_stored :
    (∀ (vals : List (List Rat)) (i j : Nat), i < vals.length →
        j < (vals.getD i []).length →
        (DenseMatrix.mk vals).get i j = some ((vals.getD i []).getD j 0))
    ∧ (DenseMatrix.mk [[1],[2,3]]).nb_cols = some 1
    ∧ (DenseMatrix.mk [[1],[2,3]]).get 1 1 = some 3 := by
  refine ⟨?_, by decide, by decide⟩
  intro vals i j hi hj
  exact denseGet_stored (DenseMatrix.mk vals) i j hi hj

/-- C10 witness. -/
theorem C10_witness :
    (DenseMatrix.mk [[1],[2,3]]).get 1 0 = some 2 :=
  C10_dense_ragged_reads_stored.1 [[1],[2,3]] 1 0 (by decide) (by decide)

end RsPmml
